import Mathlib

/-!
Shallow embedding of `src/formatter.py` (mp3-album-formatter) and proofs of
the specification claims about its matching engine, template formatter,
rename step and abort/cleanup behaviour.

Strings are modelled by Lean `String` (file names, track names) or by
`List Char` (inside the template formatter, where character-level
replacement must be reasoned about).  Python dicts are modelled as
association lists with Python's insertion-order/last-value-wins semantics.
Interactive prompts are modelled by explicit parameters: a `Bool` for each
confirmation, and a list of numeric picks (an index into the currently
offered choice list) for each selection prompt, mirroring that
`questionary` only ever returns one of the offered choices.
-/

namespace Formatter

/-- One scraped track, as produced by `Formatter.scrape`
(`formatter.py` lines 186-214): name, per-disc track number, total tracks
on the disc, disc number, total discs, extra track artists. -/
structure TrackMeta where
  name : String
  num : Nat
  total_num : Nat
  disc : Nat
  total_disc : Nat
  artists : List String
deriving DecidableEq, Repr

/-- Album metadata dictionary built by `Formatter.scrape`
(`formatter.py` lines 178-215). -/
structure AlbumMeta where
  album_name : String
  album_artists : List String
  genre : String
  year : String
  tracks : List TrackMeta
deriving DecidableEq, Repr

/-- Default track used for out-of-range list access in the model; the
Python code never actually indexes out of range on the paths we verify. -/
def defTrack : TrackMeta := ⟨"", 0, 0, 0, 0, []⟩

/-- Python exceptions relevant to `formatter.py`.  `systemExit` models
`SystemExit` as raised by `exit(1)`; it is NOT a subclass of `Exception`
in Python, unlike `MismatchException`, `InvalidFormatException`,
`FileNotFoundError` and other errors, which `run`'s
`except Exception` clause catches. -/
inductive PyErr where
  | systemExit (code : Nat)
  | mismatch (numFiles numTracks : Nat)
  | invalidFormat (msg : String)
  | fileNotFound (msg : String)
deriving DecidableEq, Repr

/-- Whether `except Exception` (line 86 of `formatter.py`) catches the
error: everything except `SystemExit`. -/
def PyErr.isException : PyErr → Bool
  | .systemExit _ => false
  | _ => true

/-! ### Python dict model

`{k: v for ...}` with string keys: first insertion fixes the position of a
key, a later insertion of the same key overwrites the value in place. -/

/-- Insert key `k` with value `v` into the association list `l` with
Python-dict semantics: overwrite in place if present, append otherwise. -/
def pyUpsert (l : List (String × α)) (k : String) (v : α) : List (String × α) :=
  if l.any (fun p => p.1 = k) then
    l.map (fun p => if p.1 = k then (k, v) else p)
  else
    l ++ [(k, v)]

/-- Build a Python dict (as an association list) from a list of key/value
pairs inserted left to right. -/
def pyDictList (ps : List (String × α)) : List (String × α) :=
  ps.foldl (fun l p => pyUpsert l p.1 p.2) []

/-- Dict lookup, `d[k]` as an `Option`. -/
def pyLookup (l : List (String × α)) (k : String) : Option α :=
  (l.find? (fun p => p.1 = k)).map (fun p => p.2)

/-- Model of `scraped_tracks_dict = {track["name"]: i for i, track in
enumerate(...)}` (`formatter.py` lines 499-501). -/
def scrapedDict (tracks : List TrackMeta) : List (String × Nat) :=
  pyDictList (tracks.enum.map (fun p => (p.2.name, p.1)))

/-- Model of `scraped_tracks = list(scraped_tracks_dict.keys())`
(`formatter.py` line 502): the distinct track names in first-occurrence
order. -/
def scrapedNames (tracks : List TrackMeta) : List String :=
  (scrapedDict tracks).map Prod.fst

/-! ### Best-guess computation

`matrix.argmax(axis=1)` (`formatter.py` line 523).  NumPy's `argmax`
contract: the index of the maximum value; when the maximum occurs several
times, the index of its first occurrence. -/

/-- Index of the first occurrence of the maximum of `row` (0 on the empty
row, which NumPy rejects; `match` never produces an empty row when any
track exists). -/
def argmaxIdx : List ℚ → Nat
  | [] => 0
  | [_] => 0
  | s :: y :: t =>
    let r := argmaxIdx (y :: t)
    if s < (y :: t).getD r 0 then r + 1 else 0

/-- Model of `best_match_inds = matrix.argmax(axis=1)`
(`formatter.py` line 523). -/
def bestMatchInds (matrix : List (List ℚ)) : List Nat :=
  matrix.map argmaxIdx

/-- Model of the RapidFuzz score matrix `process.cdist(labels, tracks)`
(`formatter.py` lines 514-518): one row per candidate label, one column
per scraped track name.  The scorer itself (`fuzz.partial_ratio`) is an
external library function and is a parameter of the model. -/
def scoreMatrix (scorer : String → String → ℚ) (labels names : List String) :
    List (List ℚ) :=
  labels.map (fun lab => names.map (fun nm => scorer lab nm))

/-! ### Template formatter

`format_album_name` / `format_song_names` (`formatter.py` lines 546-592)
iterate over `name_format_dict` in insertion order and apply
`str.replace(mod, replaced)` for each token.  Every token is a two
character string `"%c"`, so `str.replace` is modelled by `replaceTok`,
the character-level left-to-right non-overlapping replacement of
`['%', c]`. -/

/-- Python `format.replace("%" + c, r)` on a character list: scan left to
right, replace each non-overlapping occurrence of `['%', c]` by `r`. -/
def replaceTok (c : Char) (r : List Char) : List Char → List Char
  | [] => []
  | [x] => [x]
  | x :: y :: t =>
    if x = '%' ∧ y = c then r ++ replaceTok c r t
    else x :: replaceTok c r (y :: t)

/-- Apply the token substitutions of `pairs` in order, each as a full
`str.replace` pass (the `for mod, replaced in name_format_dict.items()`
loops at `formatter.py` lines 559-560 and 588-589). -/
def expandTokens (pairs : List (Char × List Char)) (p : List Char) : List Char :=
  pairs.foldl (fun s q => replaceTok q.1 q.2 s) p

/-- Python `", ".join(l)` on a list of strings, as characters. -/
def joinComma (l : List String) : List Char :=
  match l with
  | [] => []
  | [s] => s.toList
  | s :: t => s.toList ++ [',', ' '] ++ joinComma t

/-- Python `str(n).zfill(2)`: decimal representation left-padded with
`'0'` to length at least 2. -/
def zfill2 (n : Nat) : List Char :=
  let s := (toString n).toList
  if s.length < 2 then List.replicate (2 - s.length) '0' ++ s else s

/-- The token dictionary of `format_album_name` (`formatter.py`
lines 552-557), in Python dict insertion order: `%a`, `%r`, `%g`, `%y`. -/
def albumDict (md : AlbumMeta) : List (Char × List Char) :=
  [('a', md.album_name.toList),
   ('r', joinComma md.album_artists),
   ('g', md.genre.toList),
   ('y', md.year.toList)]

/-- The token dictionary used by `format_song_names` for one track
(`formatter.py` lines 570-585).  The per-track keys `%t`, `%s`, `%n`,
`%d` are inserted after the album-level keys, so the iteration order of
the dict is `%a, %r, %g, %y, %t, %s, %n, %d` on every iteration of the
track loop. -/
def songDict (md : AlbumMeta) (tr : TrackMeta) : List (Char × List Char) :=
  albumDict md ++
  [('t', tr.name.toList),
   ('s', joinComma tr.artists),
   ('n', zfill2 tr.num),
   ('d', toString tr.disc |>.toList)]

/-- Model of `Formatter.format_album_name` (`formatter.py` lines 546-561)
for a given album-name format string. -/
def formatAlbumName (md : AlbumMeta) (fmt : List Char) : List Char :=
  expandTokens (albumDict md) fmt

/-- Model of `Formatter.format_song_names` (`formatter.py` lines 563-592)
for a given song-name format string: one expanded name per matched track
index, in order. -/
def formatSongNames (md : AlbumMeta) (fmt : List Char) (inds : List Nat) :
    List (List Char) :=
  inds.map (fun i => expandTokens (songDict md (md.tracks.getD i defTrack)) fmt)

/-- Characters removed by `re.sub(r'[<>:"\/\\\|\?\*]', "", ...)`
(`formatter.py` lines 701 and 716). -/
def illegalChars : List Char := ['<', '>', ':', '"', '/', '\\', '|', '?', '*']

/-- Strip filesystem-illegal characters from a name. -/
def stripIllegal (s : List Char) : List Char :=
  s.filter (fun c => ¬ c ∈ illegalChars)

/-- Specification-level one-pass expansion, modelled from the spec:
scan the original pattern left to right; at a recognized token `%c`,
emit the bound context value and continue after the token without
rescanning the emitted value; every other character passes through
unchanged.  Used to compare the code's sequential-replacement formatter
against the spec's "tokens are applied once, not recursively". -/
def expandScan (pairs : List (Char × List Char)) : List Char → List Char
  | [] => []
  | [x] => [x]
  | x :: y :: t =>
    if x = '%' then
      match pairs.find? (fun q => q.1 = y) with
      | some q => q.2 ++ expandScan pairs t
      | none => x :: expandScan pairs (y :: t)
    else x :: expandScan pairs (y :: t)

/-- No two consecutive `'%'` characters (true of every reasonable naming
pattern; the hypothesis under which sequential replacement agrees with
the one-pass expansion). -/
def noPP : List Char → Bool
  | [] => true
  | [_] => true
  | x :: y :: t => !(x = '%' && y = '%') && noPP (y :: t)

/-- Whether the token `%c` occurs in `s`. -/
def occursTok (c : Char) : List Char → Bool
  | [] => false
  | [_] => false
  | x :: y :: t => (x = '%' && y = c) || occursTok c (y :: t)

/-! ### `__match_less` (`formatter.py` lines 220-305)

The user confirms (decline calls `exit(1)`, i.e. raises `SystemExit`),
then for each file in original order picks one of the remaining track
names (`questionary.autocomplete` with `validate=lambda res: res in
scraped_tracks_copy` only accepts a remaining name); the chosen name is
removed from the pool (`scraped_tracks_copy.remove(chosen)`) and the file
is mapped to `scraped_tracks_dict[chosen]`. -/

/-- Validity of a pick sequence: each pick indexes into the current
choice pool, whose size shrinks by one per step. -/
def validPicks : Nat → List Nat → Bool
  | _, [] => true
  | n, k :: ks => decide (k < n) && validPicks (n - 1) ks

/-- The `for i, file_name in enumerate(file_names_ext)` loop of
`__match_less` (`formatter.py` lines 289-303): `copy` is
`scraped_tracks_copy`, each pick selects a remaining name. -/
def matchLessGo (dict : List (String × Nat)) :
    List String → List String → List Nat → List (String × Nat)
  | [], _, _ => []
  | _ :: _, _, [] => []
  | f :: fs, copy, k :: ks =>
    let chosen := copy.getD k ""
    (f, (pyLookup dict chosen).getD 0) :: matchLessGo dict fs (copy.erase chosen) ks

/-- Model of `Formatter.__match_less`. -/
def matchLessModel (proceed : Bool) (files names : List String)
    (dict : List (String × Nat)) (picks : List Nat) :
    Except PyErr (List (String × Nat)) :=
  if ¬ proceed then .error (.systemExit 1)
  else .ok (pyDictList (matchLessGo dict files names picks))

/-! ### `__match_same` (`formatter.py` lines 307-470) -/

/-- The placeholder written into fields 3 and 4 of an unresolved row. -/
def UNMATCHED : String := "*** UNMATCHED ***"

/-- In-place update of index `n` of a list (Python `x[n] = ...`);
out-of-range indices leave the list unchanged. -/
def modifyIdx (f : α → α) : Nat → List α → List α
  | _, [] => []
  | 0, a :: l => f a :: l
  | n + 1, a :: l => a :: modifyIdx f n l

/-- Model of the reverse map construction (`formatter.py` lines 337-341):
`x = [[] for _ in range(len(file_names_ext))]` followed by
`x[scraped_i].append(file_i)` for each file index in order. -/
def buildX (bmi : List Nat) (n : Nat) : List (List Nat) :=
  bmi.enum.foldl (fun x p => modifyIdx (fun b => b ++ [p.1]) p.2 x)
    (List.replicate n [])

/-- Field 3 of the row for a track whose bucket of best-guess files is
`b`: the matched file name for a singleton bucket, the `UNMATCHED`
placeholder otherwise (`formatter.py` lines 344-391). -/
def bucketFile (files : List String) : List Nat → String
  | [i] => files.getD i ""
  | _ => UNMATCHED

/-- One row of `matched_track_names`: disc, track number, track name and
the matched file (field 3, the one the final mapping is built from).
Fields 4 and 5 (display string and similarity score) do not influence
the returned mapping and are omitted. -/
structure SRow where
  disc : Nat
  num : Nat
  track : String
  file : String
deriving DecidableEq, Repr

/-- The rows of `matched_track_names` before sorting, one per scraped
track index (`formatter.py` lines 342-391). -/
def mkRows (meta : List TrackMeta) (names files : List String)
    (x : List (List Nat)) : List SRow :=
  x.enum.map (fun p =>
    { disc := (meta.getD p.1 defTrack).disc
      num := (meta.getD p.1 defTrack).num
      track := names.getD p.1 ""
      file := bucketFile files p.2 })

/-- The `unmatched_inds` list: indices of buckets with zero or more than
one best-guess file, in increasing order (`formatter.py`
lines 344-345 and 358-359). -/
def unmatchedIndsAux : Nat → List (List Nat) → List Nat
  | _, [] => []
  | t, b :: bs =>
    if b.length = 1 then unmatchedIndsAux (t + 1) bs
    else t :: unmatchedIndsAux (t + 1) bs

/-- The `unmatched_inds` list starting from index 0. -/
def unmatchedInds (x : List (List Nat)) : List Nat := unmatchedIndsAux 0 x

/-- The `unmatched_files` pool: the files of every bucket with more than
one best-guess file, in bucket order (`formatter.py` line 361). -/
def unmatchedFiles (files : List String) (x : List (List Nat)) : List String :=
  (x.map (fun b =>
    if 1 < b.length then b.map (fun i => files.getD i "") else [])).flatten

/-- Comparison used by `matched_track_names.sort()` (`formatter.py`
line 393).  Python compares the rows lexicographically; the first two
fields are `(disc, num)`, which the scraper makes strictly increasing
across rows, so later fields never decide the order on the runs we
verify and the model compares `(disc, num)` only. -/
def rowLE (a b : SRow) : Prop :=
  a.disc < b.disc ∨ (a.disc = b.disc ∧ a.num ≤ b.num)

instance rowLE.decRel : DecidableRel rowLE := fun a b =>
  inferInstanceAs (Decidable (a.disc < b.disc ∨ (a.disc = b.disc ∧ a.num ≤ b.num)))

/-- The manual-resolution loop (`formatter.py` lines 442-452): for each
unmatched row index (in order), the user selects one of the remaining
pool entries; field 3 of that row is set to the selected file and the
entry is removed from the pool (`choices.remove(chosen)`). -/
def resolveRows : List SRow → List Nat → List String → List Nat → List SRow
  | rows, t :: ts, pool, k :: ks =>
    resolveRows (modifyIdx (fun r => { r with file := pool.getD k "" }) t rows) ts
      (pool.eraseIdx k) ks
  | rows, _, _, _ => rows

/-- Model of `Formatter.__match_same`: build the reverse map, the rows
and the unmatched pools, sort the rows, resolve manually when the pool
is nonempty, and return `{field[3]: i for i, field in
enumerate(matched_track_names)}` (`formatter.py` line 470). -/
def matchSame (meta : List TrackMeta) (names files : List String)
    (bmi picks : List Nat) : List (String × Nat) :=
  let x := buildX bmi files.length
  let rows := mkRows meta names files x
  let sorted := List.insertionSort rowLE rows
  let inds := unmatchedInds x
  let pool := unmatchedFiles files x
  let final := if pool.isEmpty then sorted else resolveRows sorted inds pool picks
  pyDictList (final.enum.map (fun p => (p.2.file, p.1)))

/-! ### `match` (`formatter.py` lines 472-544) -/

/-- Python `os.path.splitext(file)[0]` for a file name ending in
`".mp3"`: drop the last four characters. -/
def baseName (s : String) : String :=
  (s.toList.take (s.toList.length - 4)).asString

/-- The external inputs of one `match` run: the similarity scorer (the
RapidFuzz library function), the mode flag, the files' existing ID3
titles, and the user's answers to the interactive prompts. -/
structure MatchEnv where
  scorer : String → String → ℚ
  useMetadata : Bool
  titles : List String
  proceedLess : Bool
  picks : List Nat

/-- Model of `Formatter.match`: build the name-to-index dict and the
distinct name list, fail with `MismatchException` when there are more
files than (distinct) scraped tracks, otherwise score, take per-row best
guesses, and dispatch on the cardinality comparison. -/
def matchModel (env : MatchEnv) (md : AlbumMeta) (files : List String) :
    Except PyErr (List (String × Nat)) :=
  let fileNames := files.map baseName
  let dict := scrapedDict md.tracks
  let names := scrapedNames md.tracks
  if fileNames.length > names.length then
    .error (.mismatch fileNames.length names.length)
  else
    let labels := if env.useMetadata then env.titles else fileNames
    let matrix := scoreMatrix env.scorer labels names
    let bmi := bestMatchInds matrix
    if fileNames.length < names.length then
      matchLessModel env.proceedLess files names dict env.picks
    else
      .ok (matchSame md.tracks names files bmi env.picks)

/-! ### Constructor, `update` and `run`
(`formatter.py` lines 26-90 and 594-727) -/

/-- The configuration held by a constructed `Formatter`. -/
structure Config where
  albumPath : String
  destPath : Option String
  albumLink : String
  extract : Bool
  useMetadata : Bool
  preserveAlbumName : Bool
  preserveSongNames : Bool
  albumNameFormat : String
  songNameFormat : String
deriving DecidableEq, Repr

/-- `self.__update_path` (`formatter.py` lines 74-76). -/
def Config.updatePath (c : Config) : String :=
  if c.extract then c.destPath.getD "" else c.albumPath

/-- Model of `Formatter.__init__` (`formatter.py` lines 26-77): the
empty-format check runs first, then the album-path existence check, then
the `None` formats receive their defaults. -/
def initFormatter (albumPath : String) (albumPathExists : Bool)
    (destPath : Option String) (albumLink : String)
    (extract useMetadata preserveAlbumName preserveSongNames : Bool)
    (albumNameFormat songNameFormat : Option String) : Except PyErr Config :=
  if albumNameFormat = some "" ∨ songNameFormat = some "" then
    .error (.invalidFormat "Invalid name format: empty string")
  else if albumPathExists then
    .ok { albumPath := albumPath
          destPath := destPath
          albumLink := albumLink
          extract := extract
          useMetadata := useMetadata
          preserveAlbumName := preserveAlbumName
          preserveSongNames := preserveSongNames
          albumNameFormat := albumNameFormat.getD "%a"
          songNameFormat := songNameFormat.getD "%t" }
  else
    .error (.fileNotFound ("Could not find " ++ albumPath))

/-- Observable file-system mutations of one run. -/
inductive Ev where
  | unzipped (dest : String)
  | tagWrite (file : String)
  | renameFile (old new : String)
  | renameAlbum (old new : String)
  | deleteZip (path : String)
  | rmtree (path : String)
deriving DecidableEq, Repr

/-- Model of `Formatter.update` (`formatter.py` lines 594-727): the
confirmation prompt (decline raises `SystemExit` via `exit(1)` at
line 607), the per-file tag writes, the song renaming step guarded by
`len(formatted_names) == len(set(formatted_names))` — i.e. by the
formatted names being pairwise distinct BEFORE illegal characters are
stripped — the album folder renaming, and the ZIP deletion prompt.
Returns the mutation events and the optional uncaught error. -/
def updateModel (cfg : Config) (md : AlbumMeta) (mapping : List (String × Nat))
    (confirmUpdate confirmDelZip : Bool) : List Ev × Option PyErr :=
  if ¬ confirmUpdate then ([], some (.systemExit 1))
  else
    let tagEvs := mapping.map (fun p => Ev.tagWrite p.1)
    let renameEvs :=
      if ¬ cfg.preserveSongNames then
        let formatted :=
          formatSongNames md cfg.songNameFormat.toList (mapping.map Prod.snd)
        if formatted.Nodup then
          List.zipWith
            (fun old fn => Ev.renameFile old ((stripIllegal fn).asString ++ ".mp3"))
            (mapping.map Prod.fst) formatted
        else []
      else []
    let albumEvs :=
      if ¬ cfg.preserveAlbumName then
        [Ev.renameAlbum cfg.updatePath
          (stripIllegal (formatAlbumName md cfg.albumNameFormat.toList)).asString]
      else []
    let zipEvs := if cfg.extract ∧ confirmDelZip then [Ev.deleteZip cfg.albumPath] else []
    (tagEvs ++ renameEvs ++ albumEvs ++ zipEvs, none)

/-- Model of `Formatter.run` (`formatter.py` lines 79-90): unzip, then
match (its outcome — mapping, `MismatchException`, or the `SystemExit`
raised when the user declines the fewer-files confirmation — is the
parameter `matchRes`), then update.  The `except Exception` clause
deletes the destination directory only for errors that ARE `Exception`
subclasses; `SystemExit` propagates uncaught, so no cleanup runs for it.
`destIsDir` models `os.path.isdir(self.__dest_path)` at handler time. -/
def runModel (cfg : Config) (md : AlbumMeta)
    (matchRes : Except PyErr (List (String × Nat)))
    (confirmUpdate confirmDelZip : Bool) (destIsDir : Bool) : List Ev :=
  let unzipEvs := if cfg.extract then [Ev.unzipped (cfg.destPath.getD "")] else []
  let step : List Ev × Option PyErr :=
    match matchRes with
    | .error e => ([], some e)
    | .ok mapping => updateModel cfg md mapping confirmUpdate confirmDelZip
  let evs := unzipEvs ++ step.1
  match step.2 with
  | some e =>
    if e.isException ∧ cfg.destPath.getD "" ≠ "" ∧ destIsDir then
      evs ++ [Ev.rmtree (cfg.destPath.getD "")]
    else evs
  | none => evs

/-- Default row for out-of-range access in proofs. -/
def defRow : SRow := ⟨0, 0, "", ""⟩

/-! ### Concrete instances used by witnesses and counterexamples -/

/-- A one-track album: disc 1, track 3, name "Rain". -/
def mdRain : AlbumMeta := ⟨"Album", ["Artist"], "Pop", "2001",
  [⟨"Rain", 3, 10, 1, 1, []⟩]⟩

/-- The track of `mdRain`. -/
def trRain : TrackMeta := ⟨"Rain", 3, 10, 1, 1, []⟩

/-- An album whose name contains the token text `%t`. -/
def mdPct : AlbumMeta := ⟨"%t", ["X"], "G", "Y", [⟨"Rain", 3, 10, 1, 1, []⟩]⟩

/-- A two-track album whose track names differ only in a stripped
illegal character (`?` vs `*`). -/
def mdStrip : AlbumMeta := ⟨"A", ["X"], "G", "Y",
  [⟨"Rain?", 1, 2, 1, 1, []⟩, ⟨"Rain*", 2, 2, 1, 1, []⟩]⟩

/-- A configuration that renames song files in place (no extraction). -/
def cfgStrip : Config :=
  ⟨"album", none, "link", false, false, true, false, "%a", "%t"⟩

/-- A configuration that extracts to the directory "unzipped". -/
def cfgZip : Config :=
  ⟨"album.zip", some "unzipped", "link", true, false, false, false, "%a", "%t"⟩

/-- A one-track album metadata for run-model instances. -/
def mdOne : AlbumMeta := ⟨"A", ["X"], "G", "Y", [⟨"T", 1, 1, 1, 1, []⟩]⟩

/-- A two-track album used by the `__match_same` witness. -/
def metaTwo : List TrackMeta :=
  [⟨"Song One", 1, 2, 1, 1, []⟩, ⟨"Song Two", 2, 2, 1, 1, []⟩]

/-- A two-track album used by the `__match_less` witness. -/
def mdLess : AlbumMeta := ⟨"A", ["X"], "G", "Y",
  [⟨"T1", 1, 2, 1, 1, []⟩, ⟨"T2", 2, 2, 1, 1, []⟩]⟩

/-- A three-track album with a duplicated track name. -/
def tracksDup : List TrackMeta :=
  [⟨"A", 1, 3, 1, 1, []⟩, ⟨"B", 2, 3, 1, 1, []⟩, ⟨"A", 3, 3, 1, 1, []⟩]

/-- A trivial match environment (constant scorer, no prompts needed). -/
def envZero : MatchEnv := ⟨fun _ _ => 0, false, [], true, []⟩

/-! ## Lemmas about the Python dict model -/

lemma pyUpsert_keys (l : List (String × α)) (k : String) (v : α) :
    (pyUpsert l k v).map Prod.fst =
      if l.any (fun p => p.1 = k) then l.map Prod.fst
      else l.map Prod.fst ++ [k] := by
  unfold pyUpsert
  split
  · rw [List.map_map]
    exact List.map_congr_left (fun p _ => by by_cases h : p.1 = k <;> simp [h])
  · simp

lemma not_any_keys {l : List (String × α)} {k : String}
    (h : ¬ l.any (fun p => p.1 = k) = true) : k ∉ l.map Prod.fst := by
  intro hk
  rcases List.mem_map.mp hk with ⟨q, hq, hq1⟩
  exact h (List.any_eq_true.mpr ⟨q, hq, by simp [hq1]⟩)

lemma foldl_pyUpsert_eq_append :
    ∀ (ps acc : List (String × α)), ((acc ++ ps).map Prod.fst).Nodup →
      ps.foldl (fun l p => pyUpsert l p.1 p.2) acc = acc ++ ps
  | [], acc, _ => by simp
  | p :: ps, acc, h => by
    have hnot : ¬ acc.any (fun q => q.1 = p.1) = true := by
      intro hany
      rcases List.any_eq_true.mp hany with ⟨q, hq, hq1⟩
      have h1 : p.1 ∈ acc.map Prod.fst :=
        List.mem_map.mpr ⟨q, hq, by simpa using hq1⟩
      have h2 : p.1 ∈ (p :: ps).map Prod.fst := by simp
      rw [List.map_append, List.nodup_append] at h
      exact h.2.2 h1 h2
    have hstep : pyUpsert acc p.1 p.2 = acc ++ [p] := by
      unfold pyUpsert
      rw [if_neg hnot]
    rw [List.foldl_cons, hstep,
      foldl_pyUpsert_eq_append ps (acc ++ [p]) (by simpa using h)]
    simp

lemma pyDictList_eq_self {ps : List (String × α)}
    (h : (ps.map Prod.fst).Nodup) : pyDictList ps = ps := by
  have := foldl_pyUpsert_eq_append ps [] (by simpa using h)
  simpa [pyDictList] using this

lemma pyLookup_pyUpsert (l : List (String × α)) (k' : String) (v : α) (k : String) :
    pyLookup (pyUpsert l k' v) k = if k = k' then some v else pyLookup l k := by
  unfold pyUpsert pyLookup
  split
  · rename_i hany
    rw [List.find?_map]
    have hpred : ((fun p : String × α => decide (p.1 = k)) ∘
        (fun p : String × α => if p.1 = k' then (k', v) else p)) =
        (fun p : String × α => decide (p.1 = k)) := by
      funext q
      by_cases hq : q.1 = k' <;> simp [hq]
    rw [hpred]
    by_cases hk : k = k'
    · subst hk
      rcases List.any_eq_true.mp hany with ⟨q, hq, hq1⟩
      have hsome : (l.find? (fun p : String × α => decide (p.1 = k))).isSome :=
        List.find?_isSome.mpr ⟨q, hq, hq1⟩
      rcases Option.isSome_iff_exists.mp hsome with ⟨q₀, hq₀⟩
      have hq₀1 : q₀.1 = k := by simpa using List.find?_some hq₀
      rw [hq₀, if_pos rfl]
      simp [hq₀1]
    · rw [if_neg hk]
      cases hfind : l.find? (fun p : String × α => decide (p.1 = k)) with
      | none => simp
      | some q₀ =>
        have hq₀1 : q₀.1 = k := by simpa using List.find?_some hfind
        have : (if q₀.1 = k' then (k', v) else q₀) = q₀ := by
          rw [if_neg (by rw [hq₀1]; exact hk)]
        simp [this]
  · rename_i hany
    rw [List.find?_append]
    by_cases hk : k = k'
    · subst hk
      have hnone : l.find? (fun p : String × α => decide (p.1 = k)) = none := by
        rw [List.find?_eq_none]
        intro q hq hq1
        exact not_any_keys hany (List.mem_map.mpr ⟨q, hq, by simpa using hq1⟩)
      rw [if_pos rfl, hnone]
      simp
    · have hone : List.find? (fun p : String × α => decide (p.1 = k)) [(k', v)] = none := by
        simp [List.find?, Ne.symm, hk]
      rw [if_neg hk, hone]
      simp

lemma pyLookup_isSome_of_mem_keys {l : List (String × α)} {k : String}
    (h : k ∈ l.map Prod.fst) : (pyLookup l k).isSome := by
  rcases List.mem_map.mp h with ⟨p, hp, hpk⟩
  unfold pyLookup
  have hs : (List.find? (fun q : String × α => q.1 = k) l).isSome :=
    List.find?_isSome.mpr ⟨p, hp, by simp [hpk]⟩
  cases hf : List.find? (fun q : String × α => q.1 = k) l with
  | none => rw [hf] at hs; simp at hs
  | some q => rfl

lemma foldl_pyUpsert_keys_nodup :
    ∀ (ps acc : List (String × α)), (acc.map Prod.fst).Nodup →
      ((ps.foldl (fun l p => pyUpsert l p.1 p.2) acc).map Prod.fst).Nodup
  | [], _, h => h
  | p :: ps, acc, h => by
    rw [List.foldl_cons]
    apply foldl_pyUpsert_keys_nodup ps
    rw [pyUpsert_keys]
    split
    · exact h
    · rename_i hany
      rw [List.nodup_append]
      exact ⟨h, List.nodup_singleton _,
        fun a ha hb => by
          rw [List.mem_singleton] at hb
          exact not_any_keys hany (hb ▸ ha)⟩

lemma pyDictList_keys_nodup (ps : List (String × α)) :
    ((pyDictList ps).map Prod.fst).Nodup :=
  foldl_pyUpsert_keys_nodup ps [] (by simp)

lemma mem_foldl_pyUpsert_keys :
    ∀ (ps acc : List (String × α)) (k : String),
      (k ∈ (ps.foldl (fun l q => pyUpsert l q.1 q.2) acc).map Prod.fst ↔
        k ∈ acc.map Prod.fst ∨ k ∈ ps.map Prod.fst)
  | [], acc, k => by simp
  | p :: ps, acc, k => by
    rw [List.foldl_cons, mem_foldl_pyUpsert_keys ps]
    have hup : k ∈ (pyUpsert acc p.1 p.2).map Prod.fst ↔
        k ∈ acc.map Prod.fst ∨ k = p.1 := by
      rw [pyUpsert_keys]
      split
      · rename_i hany
        rcases List.any_eq_true.mp hany with ⟨q, hq, hq1⟩
        have hp : p.1 ∈ acc.map Prod.fst :=
          List.mem_map.mpr ⟨q, hq, by simpa using hq1⟩
        constructor
        · exact Or.inl
        · rintro (h | rfl)
          · exact h
          · exact hp
      · simp
    rw [hup]
    simp only [List.map_cons, List.mem_cons]
    tauto

lemma mem_pyDictList_keys (ps : List (String × α)) (k : String) :
    k ∈ (pyDictList ps).map Prod.fst ↔ k ∈ ps.map Prod.fst := by
  have := mem_foldl_pyUpsert_keys ps [] k
  simpa [pyDictList] using this

lemma pyDictList_length_le :
    ∀ (ps acc : List (String × α)),
      (ps.foldl (fun l p => pyUpsert l p.1 p.2) acc).length ≤ acc.length + ps.length
  | [], acc => by simp
  | p :: ps, acc => by
    rw [List.foldl_cons]
    refine le_trans (pyDictList_length_le ps _) ?_
    have : (pyUpsert acc p.1 p.2).length ≤ acc.length + 1 := by
      unfold pyUpsert
      split
      · simp
      · simp
    simp only [List.length_cons]
    omega

/-! ## Lemmas about the scraped-track dict (deduplication by name) -/

lemma scrapedDict_nil : scrapedDict [] = [] := by
  simp [scrapedDict, pyDictList]

lemma scrapedDict_append (tracks : List TrackMeta) (tr : TrackMeta) :
    scrapedDict (tracks ++ [tr]) =
      pyUpsert (scrapedDict tracks) tr.name tracks.length := by
  unfold scrapedDict pyDictList
  rw [List.enum_append]
  simp [List.foldl_append, List.enumFrom]

lemma pyLookup_scrapedDict :
    ∀ (tracks : List TrackMeta) (nm : String) (i : Nat),
      pyLookup (scrapedDict tracks) nm = some i →
      i < tracks.length ∧ (tracks.getD i defTrack).name = nm ∧
        ∀ j, i < j → j < tracks.length → (tracks.getD j defTrack).name ≠ nm := by
  intro tracks
  induction tracks using List.reverseRecOn with
  | nil => intro nm i h; rw [scrapedDict_nil] at h; simp [pyLookup] at h
  | append_singleton l tr ih =>
    intro nm i h
    rw [scrapedDict_append, pyLookup_pyUpsert] at h
    by_cases hnm : nm = tr.name
    · rw [if_pos hnm] at h
      obtain rfl : l.length = i := by simpa using h
      refine ⟨by simp, ?_, ?_⟩
      · have : (l ++ [tr]).getD l.length defTrack = tr := by
          rw [List.getD_eq_getElem _ _ (by simp)]
          simp
        rw [this, hnm]
      · intro j hj hj'
        simp at hj'
        omega
    · rw [if_neg hnm] at h
      obtain ⟨h1, h2, h3⟩ := ih nm i h
      refine ⟨by simp; omega, ?_, ?_⟩
      · rwa [List.getD_eq_getElem _ _ (by simp; omega), List.getElem_append_left h1,
          ← List.getD_eq_getElem _ defTrack h1]
      · intro j hj hj'
        simp at hj'
        rcases Nat.lt_or_ge j l.length with hlt | hge
        · rw [List.getD_eq_getElem _ _ (by simp; omega), List.getElem_append_left hlt,
            ← List.getD_eq_getElem _ defTrack hlt]
          exact h3 j hj hlt
        · have hj'' : j = l.length := by omega
          subst hj''
          have : (l ++ [tr]).getD l.length defTrack = tr := by
            rw [List.getD_eq_getElem _ _ (by simp)]
            simp
          rw [this]
          exact fun hc => hnm hc.symm

lemma scrapedNames_nodup (tracks : List TrackMeta) :
    (scrapedNames tracks).Nodup :=
  pyDictList_keys_nodup _

lemma mem_scrapedNames (tracks : List TrackMeta) (nm : String) :
    nm ∈ scrapedNames tracks ↔ nm ∈ tracks.map TrackMeta.name := by
  unfold scrapedNames scrapedDict
  rw [mem_pyDictList_keys, List.map_map]
  have he : tracks.enum.map
      (Prod.fst ∘ fun p : Nat × TrackMeta => (p.2.name, p.1)) =
      tracks.map TrackMeta.name := by
    have h1 : (Prod.fst ∘ fun p : Nat × TrackMeta => (p.2.name, p.1)) =
        (TrackMeta.name ∘ Prod.snd) := rfl
    rw [h1, ← List.map_map, List.enum_map_snd]
  rw [he]

lemma scrapedNames_length_le (tracks : List TrackMeta) :
    (scrapedNames tracks).length ≤ tracks.length := by
  unfold scrapedNames scrapedDict pyDictList
  rw [List.length_map]
  have := pyDictList_length_le (tracks.enum.map (fun p => (p.2.name, p.1))) []
  simpa using this

/-! ## Lemmas about the best-guess computation -/

lemma argmaxIdx_spec : ∀ (row : List ℚ), row ≠ [] →
    argmaxIdx row < row.length ∧
    (∀ j, j < row.length → row.getD j 0 ≤ row.getD (argmaxIdx row) 0) ∧
    (∀ j, j < argmaxIdx row → row.getD j 0 < row.getD (argmaxIdx row) 0)
  | [], h => absurd rfl h
  | [s], _ => by
    refine ⟨by simp [argmaxIdx], ?_, ?_⟩
    · intro j hj
      simp only [List.length_singleton] at hj
      have : j = 0 := by omega
      subst this
      exact le_refl _
    · intro j hj
      simp [argmaxIdx] at hj
  | s :: y :: t, _ => by
    obtain ⟨ih1, ih2, ih3⟩ := argmaxIdx_spec (y :: t) (by simp)
    have hunf : argmaxIdx (s :: y :: t) =
        if s < (y :: t).getD (argmaxIdx (y :: t)) 0 then argmaxIdx (y :: t) + 1
        else 0 := rfl
    by_cases h : s < (y :: t).getD (argmaxIdx (y :: t)) 0
    · rw [hunf, if_pos h]
      refine ⟨by simpa using Nat.succ_lt_succ ih1, ?_, ?_⟩
      · intro j hj
        cases j with
        | zero => simpa using le_of_lt h
        | succ j' =>
          rw [List.getD_cons_succ, List.getD_cons_succ]
          exact ih2 j' (by simpa using Nat.lt_of_succ_lt_succ hj)
      · intro j hj
        cases j with
        | zero => simpa using h
        | succ j' =>
          rw [List.getD_cons_succ, List.getD_cons_succ]
          exact ih3 j' (Nat.lt_of_succ_lt_succ hj)
    · rw [hunf, if_neg h]
      push_neg at h
      refine ⟨by simp, ?_, ?_⟩
      · intro j hj
        cases j with
        | zero => exact le_refl _
        | succ j' =>
          rw [List.getD_cons_succ, List.getD_cons_zero]
          exact le_trans (ih2 j' (by simpa using Nat.lt_of_succ_lt_succ hj)) h
      · intro j hj
        exact absurd hj (Nat.not_lt_zero j)

/-! ## Lemmas about the template formatter -/

lemma expandTokens_nil (pairs : List (Char × List Char)) :
    expandTokens pairs [] = [] := by
  induction pairs with
  | nil => rfl
  | cons q pairs ih => simpa [expandTokens, List.foldl_cons, replaceTok] using ih

lemma expandTokens_single (pairs : List (Char × List Char)) (x : Char) :
    expandTokens pairs [x] = [x] := by
  induction pairs with
  | nil => rfl
  | cons q pairs ih => simpa [expandTokens, List.foldl_cons, replaceTok] using ih

lemma expandTokens_cons_pairs (q : Char × List Char)
    (pairs : List (Char × List Char)) (s : List Char) :
    expandTokens (q :: pairs) s = expandTokens pairs (replaceTok q.1 q.2 s) := rfl

lemma replaceTok_not_occurs (c : Char) (r : List Char) :
    ∀ s : List Char, occursTok c s = false → replaceTok c r s = s
  | [], _ => rfl
  | [_], _ => rfl
  | x :: y :: t, h => by
    simp only [occursTok, Bool.or_eq_false_iff, Bool.and_eq_false_iff] at h
    have hcond : ¬ (x = '%' ∧ y = c) := by
      rintro ⟨h1, h2⟩
      rcases h.1 with hc | hc <;> simp [h1, h2] at hc
    rw [replaceTok, if_neg hcond, replaceTok_not_occurs c r (y :: t) h.2]

lemma expandTokens_not_occurs :
    ∀ (pairs : List (Char × List Char)) (s : List Char),
      (∀ q ∈ pairs, occursTok q.1 s = false) → expandTokens pairs s = s
  | [], _, _ => rfl
  | q :: pairs, s, h => by
    rw [expandTokens_cons_pairs, replaceTok_not_occurs q.1 q.2 s (h q (by simp))]
    exact expandTokens_not_occurs pairs s (fun q' hq' => h q' (by simp [hq']))

lemma replaceTok_cons_ne (c : Char) (r : List Char) (a : Char) (s : List Char)
    (ha : a ≠ '%') : replaceTok c r (a :: s) = a :: replaceTok c r s := by
  cases s with
  | nil => rfl
  | cons y t =>
    rw [replaceTok, if_neg (by rintro ⟨h1, _⟩; exact ha h1)]

lemma replaceTok_append_nopct (c : Char) (r : List Char) :
    ∀ (u z : List Char), (∀ a ∈ u, a ≠ '%') →
      replaceTok c r (u ++ z) = u ++ replaceTok c r z
  | [], _, _ => rfl
  | a :: u, z, h => by
    rw [List.cons_append, replaceTok_cons_ne c r a _ (h a (by simp)),
      replaceTok_append_nopct c r u z (fun b hb => h b (by simp [hb])),
      List.cons_append]

lemma replaceTok_pct_cons_ne (c : Char) (r : List Char) (y : Char) (t : List Char)
    (hcy : y ≠ c) (hy : y ≠ '%') :
    replaceTok c r ('%' :: y :: t) = '%' :: y :: replaceTok c r t := by
  rw [replaceTok, if_neg (by rintro ⟨_, h2⟩; exact hcy h2),
    replaceTok_cons_ne c r y t hy]

lemma expandTokens_cons_ne :
    ∀ (pairs : List (Char × List Char)) (a : Char) (s : List Char), a ≠ '%' →
      expandTokens pairs (a :: s) = a :: expandTokens pairs s
  | [], _, _, _ => rfl
  | q :: pairs, a, s, ha => by
    rw [expandTokens_cons_pairs, replaceTok_cons_ne q.1 q.2 a s ha,
      expandTokens_cons_ne pairs a _ ha, expandTokens_cons_pairs]

lemma expandTokens_append_nopct :
    ∀ (pairs : List (Char × List Char)) (u z : List Char), (∀ a ∈ u, a ≠ '%') →
      expandTokens pairs (u ++ z) = u ++ expandTokens pairs z
  | [], _, _, _ => rfl
  | q :: pairs, u, z, h => by
    rw [expandTokens_cons_pairs, replaceTok_append_nopct q.1 q.2 u z h,
      expandTokens_append_nopct pairs u _ h, expandTokens_cons_pairs]

lemma expandTokens_pct_cons_ne :
    ∀ (pairs : List (Char × List Char)) (y : Char) (t : List Char),
      (∀ q ∈ pairs, q.1 ≠ y) → y ≠ '%' →
      expandTokens pairs ('%' :: y :: t) = '%' :: y :: expandTokens pairs t
  | [], _, _, _, _ => rfl
  | q :: pairs, y, t, hq, hy => by
    rw [expandTokens_cons_pairs,
      replaceTok_pct_cons_ne q.1 q.2 y t (fun h => hq q (by simp) h.symm) hy,
      expandTokens_pct_cons_ne pairs y _ (fun q' h' => hq q' (by simp [h'])) hy,
      expandTokens_cons_pairs]

lemma find?_eq_some_split {α : Type _} {p : α → Bool} :
    ∀ {l : List α} {a : α}, l.find? p = some a →
      ∃ l₁ l₂, l = l₁ ++ a :: l₂ ∧ ∀ x ∈ l₁, p x = false
  | [], a, h => by simp at h
  | b :: l, a, h => by
    rw [List.find?_cons] at h
    split at h
    · cases h
      exact ⟨[], l, rfl, by simp⟩
    · obtain ⟨l₁, l₂, hl, hp⟩ := find?_eq_some_split h
      rename_i hb
      exact ⟨b :: l₁, l₂, by rw [hl]; rfl,
        fun x hx => by
          rcases List.mem_cons.mp hx with rfl | hx'
          · exact hb
          · exact hp x hx'⟩

lemma expandScan_cons_ne (pairs : List (Char × List Char)) (a : Char)
    (s : List Char) (ha : a ≠ '%') :
    expandScan pairs (a :: s) = a :: expandScan pairs s := by
  cases s with
  | nil => rfl
  | cons y t => rw [expandScan, if_neg ha]

lemma noPP_of_cons {a : Char} {s : List Char} (h : noPP (a :: s) = true) :
    noPP s = true := by
  cases s with
  | nil => rfl
  | cons y t =>
    simp only [noPP, Bool.and_eq_true] at h
    exact h.2

lemma expandTokens_append_pairs (A B : List (Char × List Char)) (s : List Char) :
    expandTokens (A ++ B) s = expandTokens B (expandTokens A s) := by
  unfold expandTokens
  rw [List.foldl_append]

/-- Under the conditions that no token character is `'%'`, no context
value contains `'%'`, and the pattern has no two consecutive `'%'`
characters, the code's sequential full-string replacement passes agree
with the one-pass left-to-right expansion: each token occurrence of the
original pattern is replaced exactly once and substituted values are
never rescanned. -/
lemma expandTokens_eq_scan (pairs : List (Char × List Char))
    (hv : ∀ q ∈ pairs, q.1 ≠ '%' ∧ ∀ a ∈ q.2, a ≠ '%') :
    ∀ s : List Char, noPP s = true → expandTokens pairs s = expandScan pairs s
  | [], _ => by rw [expandTokens_nil]; rfl
  | [x], _ => by rw [expandTokens_single]; rfl
  | x :: y :: t, hs => by
    by_cases hx : x = '%'
    · subst hx
      have hy : y ≠ '%' := by
        intro hy
        subst hy
        simp [noPP] at hs
      have hyt : noPP (y :: t) = true := noPP_of_cons hs
      have ht : noPP t = true := noPP_of_cons hyt
      cases hfind : pairs.find? (fun q => q.1 = y) with
      | some q =>
        have hq1 : q.1 = y := by simpa using List.find?_some hfind
        obtain ⟨P₁, P₂, hsplit, hP₁⟩ := find?_eq_some_split hfind
        have hqmem : q ∈ pairs := by rw [hsplit]; simp
        have hP₁y : ∀ q' ∈ P₁, q'.1 ≠ y := by
          intro q' hq'
          have := hP₁ q' hq'
          simpa using this
        have hstep1 : expandTokens P₁ ('%' :: y :: t) =
            '%' :: y :: expandTokens P₁ t :=
          expandTokens_pct_cons_ne P₁ y t hP₁y hy
        have hstep2 : replaceTok q.1 q.2 ('%' :: y :: expandTokens P₁ t) =
            q.2 ++ replaceTok q.1 q.2 (expandTokens P₁ t) := by
          rw [replaceTok, if_pos ⟨rfl, hq1.symm⟩]
        have hstep3 : expandTokens P₂ (q.2 ++
            replaceTok q.1 q.2 (expandTokens P₁ t)) =
            q.2 ++ expandTokens P₂ (replaceTok q.1 q.2 (expandTokens P₁ t)) :=
          expandTokens_append_nopct P₂ q.2 _ (hv q hqmem).2
        have hfull : expandTokens pairs ('%' :: y :: t) =
            q.2 ++ expandTokens pairs t := by
          rw [hsplit, expandTokens_append_pairs, hstep1,
            expandTokens_cons_pairs, hstep2, hstep3,
            ← expandTokens_cons_pairs, ← expandTokens_append_pairs]
        rw [hfull, expandTokens_eq_scan pairs hv t ht]
        rw [expandScan, if_pos rfl, hfind]
      | none =>
        have hall : ∀ q ∈ pairs, q.1 ≠ y := by
          intro q hq
          have := List.find?_eq_none.mp hfind q hq
          simpa using this
        rw [expandTokens_pct_cons_ne pairs y t hall hy,
          expandTokens_eq_scan pairs hv t ht]
        rw [expandScan, if_pos rfl, hfind, expandScan_cons_ne pairs y t hy]
    · have hyt : noPP (y :: t) = true := noPP_of_cons hs
      rw [expandTokens_cons_ne pairs x _ hx,
        expandTokens_eq_scan pairs hv (y :: t) hyt,
        expandScan_cons_ne pairs x _ hx]

/-! ## Lemmas about `__match_less` -/

lemma matchLessGo_spec (dict : List (String × Nat)) :
    ∀ (files copy : List String) (picks : List Nat),
      copy.Nodup → picks.length = files.length →
      validPicks copy.length picks = true →
      ∃ chosen : List String, chosen.Nodup ∧ (∀ c ∈ chosen, c ∈ copy) ∧
        chosen.length = files.length ∧
        matchLessGo dict files copy picks =
          files.zip (chosen.map (fun c => (pyLookup dict c).getD 0))
  | [], copy, picks, _, _, _ => ⟨[], by simp, by simp, by simp, by
      cases picks <;> rfl⟩
  | f :: fs, copy, [], _, hlen, _ => by simp at hlen
  | f :: fs, copy, k :: ks, hnd, hlen, hval => by
    simp only [validPicks, Bool.and_eq_true, decide_eq_true_eq] at hval
    obtain ⟨hk, hks⟩ := hval
    have hmem : copy.getD k "" ∈ copy := by
      rw [List.getD_eq_getElem _ _ hk]
      exact List.getElem_mem hk
    have hnd' : (copy.erase (copy.getD k "")).Nodup := hnd.erase _
    have hlen' : (copy.erase (copy.getD k "")).length = copy.length - 1 :=
      List.length_erase_of_mem hmem
    obtain ⟨chosen', hnd'', hsub', hlen'', heq'⟩ :=
      matchLessGo_spec dict fs (copy.erase (copy.getD k "")) ks hnd'
        (by simpa using hlen) (by rw [hlen']; exact hks)
    refine ⟨copy.getD k "" :: chosen', ?_, ?_, by simpa using hlen'', ?_⟩
    · refine List.Nodup.cons ?_ hnd''
      intro hc
      exact ((hnd.mem_erase_iff).mp (hsub' _ hc)).1 rfl
    · intro c hc
      rcases List.mem_cons.mp hc with rfl | hc'
      · exact hmem
      · exact List.mem_of_mem_erase (hsub' c hc')
    · rw [matchLessGo, heq']
      simp [List.zip_cons_cons]

lemma filter_not_mem_length {vals : List Nat} {L : Nat} (hnd : vals.Nodup)
    (hlt : ∀ v ∈ vals, v < L) :
    ((List.range L).filter (fun t => ¬ t ∈ vals)).length = L - vals.length := by
  have hperm : ((List.range L).filter (fun t => t ∈ vals)).Perm vals := by
    rw [List.perm_ext_iff_of_nodup ((List.nodup_range L).filter _) hnd]
    intro a
    simp only [List.mem_filter, List.mem_range, decide_eq_true_eq]
    constructor
    · exact fun h => h.2
    · exact fun h => ⟨hlt a h, h⟩
  have hsplit := List.length_eq_length_filter_add
    (l := List.range L) (fun t => decide (t ∈ vals))
  have hmemlen : ((List.range L).filter (fun t => t ∈ vals)).length = vals.length :=
    hperm.length_eq
  have hnotp : ((List.range L).filter (fun t => ¬ t ∈ vals)) =
      ((List.range L).filter (fun t => !decide (t ∈ vals))) := by
    apply List.filter_congr
    intro t _
    simp
  rw [hnotp]
  rw [List.length_range] at hsplit
  omega

/-! ## Lemmas about `__match_same` -/

lemma modifyIdx_length (f : α → α) : ∀ (n : Nat) (l : List α),
    (modifyIdx f n l).length = l.length
  | n, [] => by cases n <;> rfl
  | 0, _ :: _ => rfl
  | n + 1, a :: l => by
    simp only [modifyIdx, List.length_cons, modifyIdx_length f n l]

lemma modifyIdx_getD_ne (f : α → α) (d : α) :
    ∀ (n m : Nat) (l : List α), n ≠ m → (modifyIdx f n l).getD m d = l.getD m d
  | n, _, [], _ => by cases n <;> rfl
  | 0, 0, _ :: _, h => absurd rfl h
  | 0, m + 1, a :: l, _ => by simp only [modifyIdx, List.getD_cons_succ]
  | n + 1, 0, a :: l, _ => by simp only [modifyIdx, List.getD_cons_zero]
  | n + 1, m + 1, a :: l, h => by
    simp only [modifyIdx, List.getD_cons_succ]
    exact modifyIdx_getD_ne f d n m l (fun hc => h (by rw [hc]))

lemma modifyIdx_map_file (c : String) :
    ∀ (t : Nat) (rows : List SRow),
      (modifyIdx (fun r => { r with file := c }) t rows).map SRow.file =
        (rows.map SRow.file).set t c
  | t, [] => by cases t <;> rfl
  | 0, _ :: _ => rfl
  | t + 1, r :: rows => by
    simp only [modifyIdx, List.map_cons, List.set_cons_succ,
      modifyIdx_map_file c t rows]

lemma coe_cons_eq (a : α) (l : List α) :
    (↑(a :: l) : Multiset α) = ↑l + ↑[a] := by
  rw [← Multiset.cons_coe, ← Multiset.singleton_add, add_comm]
  simp

lemma set_getD_multiset (d : α) :
    ∀ (l : List α) (t : Nat) (c : α), t < l.length →
      (↑(l.set t c) + ↑[l.getD t d] : Multiset α) = ↑l + ↑[c]
  | [], _, _, h => by simp at h
  | a :: l, 0, c, _ => by
    rw [List.set_cons_zero, List.getD_cons_zero, coe_cons_eq c l, coe_cons_eq a l]
    abel
  | a :: l, t + 1, c, h => by
    rw [List.set_cons_succ, List.getD_cons_succ, coe_cons_eq a (l.set t c),
      coe_cons_eq a l, add_right_comm, set_getD_multiset d l t c (by
        simpa using Nat.lt_of_succ_lt_succ h), add_right_comm]

lemma eraseIdx_getD_multiset (d : α) :
    ∀ (l : List α) (k : Nat), k < l.length →
      (↑(l.eraseIdx k) + ↑[l.getD k d] : Multiset α) = ↑l
  | [], _, h => by simp at h
  | a :: l, 0, _ => by
    rw [List.eraseIdx_cons_zero, List.getD_cons_zero, ← coe_cons_eq]
  | a :: l, k + 1, h => by
    rw [List.eraseIdx_cons_succ, List.getD_cons_succ, coe_cons_eq a (l.eraseIdx k),
      add_right_comm, eraseIdx_getD_multiset d l k (by
        simpa using Nat.lt_of_succ_lt_succ h), ← coe_cons_eq]

lemma resolveRows_length :
    ∀ (inds picks : List Nat) (rows : List SRow) (pool : List String),
      (resolveRows rows inds pool picks).length = rows.length
  | [], _, _, _ => rfl
  | _ :: _, [], _, _ => rfl
  | t :: ts, k :: ks, rows, pool => by
    rw [resolveRows, resolveRows_length ts ks _ _, modifyIdx_length]

lemma resolveRows_multiset :
    ∀ (inds picks : List Nat) (rows : List SRow) (pool : List String),
      inds.Nodup → (∀ t ∈ inds, t < rows.length) →
      picks.length = inds.length → pool.length = inds.length →
      validPicks pool.length picks = true →
      (↑((resolveRows rows inds pool picks).map SRow.file) +
        ↑(inds.map (fun t => (rows.getD t defRow).file)) : Multiset String) =
      ↑(rows.map SRow.file) + ↑pool
  | [], picks, rows, pool, _, _, _, hpool, _ => by
    have hp : pool = [] := List.length_eq_zero.mp (by simpa using hpool)
    subst hp
    cases picks <;> simp [resolveRows]
  | _ :: _, [], _, _, _, _, hp, _, _ => by simp at hp
  | t :: ts, k :: ks, rows, pool, hnd, hbound, hp, hpool, hval => by
    simp only [validPicks, Bool.and_eq_true, decide_eq_true_eq] at hval
    obtain ⟨hk, hks⟩ := hval
    have htlen : t < rows.length := hbound t (by simp)
    have htnotmem : t ∉ ts := (List.nodup_cons.mp hnd).1
    have hrec := resolveRows_multiset ts ks
      (modifyIdx (fun r => { r with file := pool.getD k "" }) t rows)
      (pool.eraseIdx k)
      (List.nodup_cons.mp hnd).2
      (fun t' ht' => by
        rw [modifyIdx_length]
        exact hbound t' (List.mem_cons_of_mem _ ht'))
      (by simpa using hp)
      (by
        rw [List.length_eraseIdx, if_pos hk]
        simp only [List.length_cons] at hpool
        omega)
      (by
        rw [List.length_eraseIdx, if_pos hk]
        exact hks)
    have hcongr : ts.map (fun t' =>
        ((modifyIdx (fun r => { r with file := pool.getD k "" }) t rows).getD t'
          defRow).file) =
        ts.map (fun t' => (rows.getD t' defRow).file) :=
      List.map_congr_left (fun t' ht' => by
        rw [modifyIdx_getD_ne _ _ t t' rows (fun hc => htnotmem (hc ▸ ht'))])
    rw [hcongr] at hrec
    have h1 : (↑((modifyIdx (fun r => { r with file := pool.getD k "" }) t
        rows).map SRow.file) + ↑[(rows.getD t defRow).file] : Multiset String) =
        ↑(rows.map SRow.file) + ↑[pool.getD k ""] := by
      rw [modifyIdx_map_file]
      have hgd : (rows.map SRow.file).getD t "" = (rows.getD t defRow).file := by
        rw [List.getD_eq_getElem _ _ (by rw [List.length_map]; exact htlen),
          List.getElem_map, List.getD_eq_getElem _ _ htlen]
      rw [← hgd]
      exact set_getD_multiset "" (rows.map SRow.file) t (pool.getD k "")
        (by rw [List.length_map]; exact htlen)
    have h2 : (↑(pool.eraseIdx k) + ↑[pool.getD k ""] : Multiset String) = ↑pool :=
      eraseIdx_getD_multiset "" pool k hk
    rw [resolveRows]
    calc (↑((resolveRows
          (modifyIdx (fun r => { r with file := pool.getD k "" }) t rows) ts
          (pool.eraseIdx k) ks).map SRow.file) +
          ↑((t :: ts).map (fun t' => (rows.getD t' defRow).file)) : Multiset String)
        = (↑((resolveRows
            (modifyIdx (fun r => { r with file := pool.getD k "" }) t rows) ts
            (pool.eraseIdx k) ks).map SRow.file) +
            ↑(ts.map (fun t' => (rows.getD t' defRow).file))) +
            ↑[(rows.getD t defRow).file] := by
          rw [List.map_cons, coe_cons_eq, add_assoc]
      _ = (↑((modifyIdx (fun r => { r with file := pool.getD k "" }) t
            rows).map SRow.file) + ↑(pool.eraseIdx k)) +
            ↑[(rows.getD t defRow).file] := by rw [hrec]
      _ = (↑((modifyIdx (fun r => { r with file := pool.getD k "" }) t
            rows).map SRow.file) + ↑[(rows.getD t defRow).file]) +
            ↑(pool.eraseIdx k) := by rw [add_right_comm]
      _ = (↑(rows.map SRow.file) + ↑[pool.getD k ""]) + ↑(pool.eraseIdx k) := by
          rw [h1]
      _ = ↑(rows.map SRow.file) + (↑(pool.eraseIdx k) + ↑[pool.getD k ""]) := by
          rw [add_assoc, add_comm (↑[pool.getD k ""] : Multiset String)]
      _ = ↑(rows.map SRow.file) + ↑pool := by rw [h2]

lemma coe_append_eq (l₁ l₂ : List α) :
    (↑(l₁ ++ l₂) : Multiset α) = ↑l₁ + ↑l₂ := rfl

lemma foldl_modifyIdx_length :
    ∀ (ps : List (Nat × Nat)) (x : List (List Nat)),
      (ps.foldl (fun x p => modifyIdx (fun b => b ++ [p.1]) p.2 x) x).length =
        x.length
  | [], _ => rfl
  | p :: ps, x => by
    rw [List.foldl_cons, foldl_modifyIdx_length ps, modifyIdx_length]

lemma buildX_length (bmi : List Nat) (n : Nat) : (buildX bmi n).length = n := by
  unfold buildX
  rw [foldl_modifyIdx_length, List.length_replicate]

lemma flatten_replicate_nil :
    ∀ (n : Nat), (List.replicate n ([] : List Nat)).flatten = []
  | 0 => rfl
  | n + 1 => by
    rw [List.replicate_succ, List.flatten_cons, flatten_replicate_nil n,
      List.nil_append]

lemma modifyIdx_append_flatten (j : Nat) :
    ∀ (b : Nat) (x : List (List Nat)), b < x.length →
      (↑((modifyIdx (fun l => l ++ [j]) b x).flatten) : Multiset Nat) =
        ↑x.flatten + ↑[j]
  | _, [], h => by simp at h
  | 0, l :: x, _ => by
    simp only [modifyIdx, List.flatten_cons]
    rw [List.append_assoc, coe_append_eq, coe_append_eq, coe_append_eq]
    abel
  | b + 1, l :: x, h => by
    simp only [modifyIdx, List.flatten_cons]
    rw [coe_append_eq,
      modifyIdx_append_flatten j b x (by simpa using Nat.lt_of_succ_lt_succ h),
      coe_append_eq]
    abel

lemma buildX_append (bmi : List Nat) (b : Nat) (n : Nat) :
    buildX (bmi ++ [b]) n =
      modifyIdx (fun l => l ++ [bmi.length]) b (buildX bmi n) := by
  unfold buildX
  rw [List.enum_append, List.foldl_append]
  rfl

lemma buildX_flatten_multiset (n : Nat) (bmi : List Nat)
    (hv : ∀ v ∈ bmi, v < n) :
    (↑((buildX bmi n).flatten) : Multiset Nat) = ↑(List.range bmi.length) := by
  induction bmi using List.reverseRecOn with
  | nil =>
    unfold buildX
    simp [flatten_replicate_nil]
  | append_singleton l b ih =>
    have hb : b < (buildX l n).length := by
      rw [buildX_length]
      exact hv b (by simp)
    rw [buildX_append, modifyIdx_append_flatten l.length b (buildX l n) hb,
      ih (fun v hvl => hv v (by simp [hvl]))]
    rw [List.length_append, List.length_singleton, List.range_succ,
      coe_append_eq]

lemma unmatchedIndsAux_mem :
    ∀ (x : List (List Nat)) (s t : Nat), t ∈ unmatchedIndsAux s x →
      s ≤ t ∧ t - s < x.length ∧ (x.getD (t - s) []).length ≠ 1
  | [], s, t, h => by simp [unmatchedIndsAux] at h
  | b :: bs, s, t, h => by
    rw [unmatchedIndsAux] at h
    split at h
    · obtain ⟨h1, h2, h3⟩ := unmatchedIndsAux_mem bs (s + 1) t h
      refine ⟨by omega, by simp only [List.length_cons]; omega, ?_⟩
      have he : t - s = (t - (s + 1)) + 1 := by omega
      rw [he, List.getD_cons_succ]
      exact h3
    · rcases List.mem_cons.mp h with rfl | h'
      · rename_i hb
        refine ⟨le_refl _, by simp, ?_⟩
        rw [Nat.sub_self, List.getD_cons_zero]
        exact hb
      · obtain ⟨h1, h2, h3⟩ := unmatchedIndsAux_mem bs (s + 1) t h'
        refine ⟨by omega, by simp only [List.length_cons]; omega, ?_⟩
        have he : t - s = (t - (s + 1)) + 1 := by omega
        rw [he, List.getD_cons_succ]
        exact h3

lemma unmatchedIndsAux_nodup :
    ∀ (x : List (List Nat)) (s : Nat), (unmatchedIndsAux s x).Nodup
  | [], _ => List.nodup_nil
  | b :: bs, s => by
    rw [unmatchedIndsAux]
    split
    · exact unmatchedIndsAux_nodup bs (s + 1)
    · refine List.Nodup.cons ?_ (unmatchedIndsAux_nodup bs (s + 1))
      intro hmem
      have := (unmatchedIndsAux_mem bs (s + 1) s hmem).1
      omega

lemma unmatchedFiles_cons (files : List String) (b : List Nat)
    (bs : List (List Nat)) :
    unmatchedFiles files (b :: bs) =
      (if 1 < b.length then b.map (fun i => files.getD i "") else []) ++
        unmatchedFiles files bs := by
  unfold unmatchedFiles
  rw [List.map_cons, List.flatten_cons]

lemma pool_inds_count (files : List String) :
    ∀ (x : List (List Nat)) (s : Nat),
      (unmatchedFiles files x).length + x.length =
        (unmatchedIndsAux s x).length + (x.map List.length).sum
  | [], _ => by simp [unmatchedFiles, unmatchedIndsAux]
  | b :: bs, s => by
    have ih := pool_inds_count files bs (s + 1)
    rw [unmatchedFiles_cons, unmatchedIndsAux]
    by_cases h1 : b.length = 1
    · rw [if_pos h1, if_neg (by omega)]
      simp only [List.nil_append, List.length_cons, List.map_cons, List.sum_cons]
      omega
    · rw [if_neg h1]
      by_cases h2 : 1 < b.length
      · rw [if_pos h2]
        simp only [List.length_append, List.length_map, List.length_cons,
          List.map_cons, List.sum_cons]
        omega
      · rw [if_neg h2]
        simp only [List.nil_append, List.length_cons, List.map_cons,
          List.sum_cons]
        omega

lemma mkRows_length (meta : List TrackMeta) (names files : List String)
    (x : List (List Nat)) : (mkRows meta names files x).length = x.length := by
  unfold mkRows
  rw [List.length_map, List.enum_length]

lemma mkRows_map_file (meta : List TrackMeta) (names files : List String)
    (x : List (List Nat)) :
    (mkRows meta names files x).map SRow.file = x.map (bucketFile files) := by
  unfold mkRows
  rw [List.map_map]
  have h1 : (SRow.file ∘ fun p : Nat × List Nat =>
      ({ disc := (meta.getD p.1 defTrack).disc
         num := (meta.getD p.1 defTrack).num
         track := names.getD p.1 ""
         file := bucketFile files p.2 } : SRow)) =
      (bucketFile files ∘ Prod.snd) := rfl
  rw [h1, ← List.map_map, List.enum_map_snd]

lemma mkRows_getD_file (meta : List TrackMeta) (names files : List String)
    (x : List (List Nat)) (t : Nat) (ht : t < x.length) :
    ((mkRows meta names files x).getD t defRow).file =
      bucketFile files (x.getD t []) := by
  rw [List.getD_eq_getElem _ _ (by rw [mkRows_length]; exact ht)]
  unfold mkRows
  rw [List.getElem_map, List.getElem_enum]
  rw [List.getD_eq_getElem _ _ ht]

lemma bucketFile_of_ne_one (files : List String) :
    ∀ (b : List Nat), b.length ≠ 1 → bucketFile files b = UNMATCHED
  | [], _ => rfl
  | [_], h => absurd rfl h
  | _ :: _ :: _, _ => rfl

lemma shuffle_add {M : Type _} [AddCommMonoid M] (u p b q f r : M)
    (h : b + q = f + r) : (u + b) + (p + q) = (p + f) + (u + r) := by
  calc (u + b) + (p + q) = (u + p) + (b + q) := by abel
    _ = (u + p) + (f + r) := by rw [h]
    _ = (p + f) + (u + r) := by abel

lemma shuffle_add₂ {M : Type _} [AddCommMonoid M] (u b q f r : M)
    (h : b + q = f + r) : (u + b) + q = (u + f) + r := by
  rw [add_assoc, h, ← add_assoc]

lemma shuffle_add₃ {M : Type _} [AddCommMonoid M] (u b q f r : M)
    (h : b + q = f + r) : (u + b) + q = f + (u + r) := by
  calc (u + b) + q = u + (b + q) := by rw [add_assoc]
    _ = u + (f + r) := by rw [h]
    _ = f + (u + r) := by abel

lemma bucket_partition (files : List String) :
    ∀ (x : List (List Nat)) (s : Nat),
      (↑(x.map (bucketFile files)) + ↑(unmatchedFiles files x) : Multiset String) =
        ↑((x.flatten).map (fun i => files.getD i "")) +
          ↑(List.replicate (unmatchedIndsAux s x).length UNMATCHED)
  | [], s => by simp [unmatchedFiles, unmatchedIndsAux]
  | b :: bs, s => by
    have ih := bucket_partition files bs (s + 1)
    rw [List.map_cons, unmatchedFiles_cons, List.flatten_cons, List.map_append,
      unmatchedIndsAux]
    by_cases h1 : b.length = 1
    · obtain ⟨i, rfl⟩ := List.length_eq_one.mp h1
      rw [if_pos h1, if_neg (by simp), List.nil_append]
      show (({files.getD i ""} : Multiset String) +
          ↑(bs.map (bucketFile files))) + ↑(unmatchedFiles files bs) =
        ({files.getD i ""} + ↑((bs.flatten).map (fun i => files.getD i ""))) +
          ↑(List.replicate (unmatchedIndsAux (s + 1) bs).length UNMATCHED)
      exact shuffle_add₂ _ _ _ _ _ ih
    · rw [if_neg h1]
      have hbU : bucketFile files b = UNMATCHED := bucketFile_of_ne_one files b h1
      rw [hbU]
      by_cases h2 : 1 < b.length
      · rw [if_pos h2, List.length_cons, List.replicate_succ]
        show (({UNMATCHED} : Multiset String) + ↑(bs.map (bucketFile files))) +
            (↑(b.map (fun i => files.getD i "")) + ↑(unmatchedFiles files bs)) =
          (↑(b.map (fun i => files.getD i "")) +
              ↑((bs.flatten).map (fun i => files.getD i ""))) +
            ({UNMATCHED} +
              ↑(List.replicate (unmatchedIndsAux (s + 1) bs).length UNMATCHED))
        exact shuffle_add _ _ _ _ _ _ ih
      · have hb0 : b = [] := by
          cases b with
          | nil => rfl
          | cons i t => simp only [List.length_cons] at h1 h2; omega
        subst hb0
        rw [if_neg h2]
        simp only [List.map_nil, List.nil_append]
        rw [List.length_cons, List.replicate_succ]
        show (({UNMATCHED} : Multiset String) + ↑(bs.map (bucketFile files))) +
            ↑(unmatchedFiles files bs) =
          ↑((bs.flatten).map (fun i => files.getD i "")) +
            ({UNMATCHED} +
              ↑(List.replicate (unmatchedIndsAux (s + 1) bs).length UNMATCHED))
        exact shuffle_add₃ _ _ _ _ _ ih

lemma map_getD_range (d : α) : ∀ (l : List α),
    (List.range l.length).map (fun i => l.getD i d) = l
  | [] => rfl
  | a :: l => by
    rw [List.length_cons, List.range_succ_eq_map, List.map_cons, List.map_map]
    have h1 : ((fun i => (a :: l).getD i d) ∘ Nat.succ) =
        (fun i => l.getD i d) := by
      funext i
      exact List.getD_cons_succ
    rw [h1, map_getD_range d l]
    rfl

lemma mkRows_sorted (meta : List TrackMeta) (names files : List String)
    (x : List (List Nat)) (hxm : x.length ≤ meta.length)
    (hkeys : List.Pairwise (fun a b : TrackMeta =>
      a.disc < b.disc ∨ (a.disc = b.disc ∧ a.num < b.num)) (meta.take x.length)) :
    List.Sorted rowLE (mkRows meta names files x) := by
  unfold mkRows List.Sorted
  rw [List.pairwise_map]
  have henum : List.Pairwise (fun p q : Nat × List Nat => p.1 < q.1) x.enum := by
    have h0 := List.pairwise_lt_range x.length
    rw [← List.enum_map_fst x, List.pairwise_map] at h0
    exact h0
  refine henum.imp_of_mem ?_
  intro p q hp hq hlt
  have hp1 : p.1 < x.length := by
    have hm : p.1 ∈ List.range x.length := by
      rw [← List.enum_map_fst]
      exact List.mem_map_of_mem Prod.fst hp
    exact List.mem_range.mp hm
  have hq1 : q.1 < x.length := by
    have hm : q.1 ∈ List.range x.length := by
      rw [← List.enum_map_fst]
      exact List.mem_map_of_mem Prod.fst hq
    exact List.mem_range.mp hm
  have hlen : (meta.take x.length).length = x.length := by
    rw [List.length_take]
    omega
  have hkey := List.pairwise_iff_getElem.mp hkeys p.1 q.1 (by omega) (by omega) hlt
  rw [List.getElem_take, List.getElem_take] at hkey
  show rowLE _ _
  unfold rowLE
  dsimp only
  rw [@List.getD_eq_getElem _ meta defTrack p.1 (by omega),
    @List.getD_eq_getElem _ meta defTrack q.1 (by omega)]
  rcases hkey with h | ⟨h1, h2⟩
  · exact Or.inl h
  · exact Or.inr ⟨h1, le_of_lt h2⟩

lemma enum_pair_map_fst (l : List SRow) :
    (l.enum.map (fun p => (p.2.file, p.1))).map Prod.fst = l.map SRow.file := by
  rw [List.map_map]
  have h1 : (Prod.fst ∘ fun p : Nat × SRow => (p.2.file, p.1)) =
      (SRow.file ∘ Prod.snd) := rfl
  rw [h1, ← List.map_map, List.enum_map_snd]

lemma enum_pair_map_snd (l : List SRow) :
    (l.enum.map (fun p => (p.2.file, p.1))).map Prod.snd =
      List.range l.length := by
  rw [List.map_map]
  have h1 : (Prod.snd ∘ fun p : Nat × SRow => (p.2.file, p.1)) =
      (Prod.fst : Nat × SRow → Nat) := rfl
  rw [h1, List.enum_map_fst]

/-! ## Claim theorems -/

/-- C1: for every run in which the number of candidate files equals the
number of (distinct) scraped tracks — so `__match_same` is the resolver —
the returned Mapping is a bijection: every candidate file name appears
exactly once as a key and every track index `0 .. n-1` appears exactly
once as a value.  Hypotheses: the name list and the best-guess list have
one entry per file with in-range best guesses (as produced by `argmax`
over the score matrix), the directory listing has no duplicate file
names, the scraped `(disc, num)` keys are strictly increasing (the
scraper invariant that makes `matched_track_names.sort()` the identity),
and the user's manual selections are picks of remaining pool entries. -/
theorem claim1_matchSame_bijection
    (meta : List TrackMeta) (names files : List String) (bmi picks : List Nat)
    (hn : names.length = files.length)
    (hnm : files.length ≤ meta.length)
    (hbmi_len : bmi.length = files.length)
    (hbmi : ∀ v ∈ bmi, v < files.length)
    (hfiles : files.Nodup)
    (hkeys : List.Pairwise (fun a b : TrackMeta =>
      a.disc < b.disc ∨ (a.disc = b.disc ∧ a.num < b.num))
      (meta.take files.length))
    (hpicks_len : picks.length =
      (unmatchedInds (buildX bmi files.length)).length)
    (hval : validPicks (unmatchedFiles files (buildX bmi files.length)).length
      picks = true) :
    ((matchSame meta names files bmi picks).map Prod.fst).Perm files ∧
    ((matchSame meta names files bmi picks).map Prod.fst).Nodup ∧
    (matchSame meta names files bmi picks).map Prod.snd =
      List.range files.length := by
  have hxlen : (buildX bmi files.length).length = files.length :=
    buildX_length bmi files.length
  have hrows_len : (mkRows meta names files (buildX bmi files.length)).length =
      files.length := by
    rw [mkRows_length, hxlen]
  have hsorted : List.Sorted rowLE
      (mkRows meta names files (buildX bmi files.length)) :=
    mkRows_sorted meta names files _ (by rw [hxlen]; exact hnm)
      (by rw [hxlen]; exact hkeys)
  have hsz : List.insertionSort rowLE
      (mkRows meta names files (buildX bmi files.length)) =
      mkRows meta names files (buildX bmi files.length) :=
    hsorted.insertionSort_eq
  have hflat : (↑((buildX bmi files.length).flatten) : Multiset Nat) =
      ↑(List.range bmi.length) :=
    buildX_flatten_multiset files.length bmi hbmi
  have hflatlen : ((buildX bmi files.length).map List.length).sum = bmi.length := by
    have hc := congrArg Multiset.card hflat
    rw [Multiset.coe_card, Multiset.coe_card, List.length_range] at hc
    rw [← List.length_flatten]
    exact hc
  have hcount := pool_inds_count files (buildX bmi files.length) 0
  rw [hflatlen, hxlen, hbmi_len] at hcount
  have hpool_len : (unmatchedFiles files (buildX bmi files.length)).length =
      (unmatchedInds (buildX bmi files.length)).length := by
    unfold unmatchedInds
    omega
  have hbranch : (if (unmatchedFiles files (buildX bmi files.length)).isEmpty
      then mkRows meta names files (buildX bmi files.length)
      else resolveRows (mkRows meta names files (buildX bmi files.length))
        (unmatchedInds (buildX bmi files.length))
        (unmatchedFiles files (buildX bmi files.length)) picks) =
      resolveRows (mkRows meta names files (buildX bmi files.length))
        (unmatchedInds (buildX bmi files.length))
        (unmatchedFiles files (buildX bmi files.length)) picks := by
    by_cases hpe : (unmatchedFiles files (buildX bmi files.length)).isEmpty
    · have hpl0 : (unmatchedFiles files (buildX bmi files.length)).length = 0 := by
        rw [List.isEmpty_iff.mp hpe]
        rfl
      have hinds_nil : unmatchedInds (buildX bmi files.length) = [] :=
        List.length_eq_zero.mp (by omega)
      rw [if_pos hpe, hinds_nil]
      rfl
    · rw [if_neg hpe]
  have hms : matchSame meta names files bmi picks =
      pyDictList ((resolveRows (mkRows meta names files (buildX bmi files.length))
        (unmatchedInds (buildX bmi files.length))
        (unmatchedFiles files (buildX bmi files.length)) picks).enum.map
        (fun p => (p.2.file, p.1))) := by
    simp only [matchSame]
    rw [hsz, hbranch]
  have hres := resolveRows_multiset (unmatchedInds (buildX bmi files.length))
    picks (mkRows meta names files (buildX bmi files.length))
    (unmatchedFiles files (buildX bmi files.length))
    (unmatchedIndsAux_nodup _ 0)
    (fun t ht => by
      obtain ⟨-, h2, -⟩ := unmatchedIndsAux_mem _ 0 t ht
      rw [Nat.sub_zero] at h2
      rw [hrows_len]
      rw [hxlen] at h2
      exact h2)
    hpicks_len hpool_len hval
  have hindsU : (unmatchedInds (buildX bmi files.length)).map
      (fun t => ((mkRows meta names files (buildX bmi files.length)).getD t
        defRow).file) =
      List.replicate (unmatchedInds (buildX bmi files.length)).length
        UNMATCHED := by
    have hall : ∀ f ∈ (unmatchedInds (buildX bmi files.length)).map
        (fun t => ((mkRows meta names files (buildX bmi files.length)).getD t
          defRow).file), f = UNMATCHED := by
      intro f hf
      rcases List.mem_map.mp hf with ⟨t, ht, rfl⟩
      obtain ⟨-, h2, h3⟩ := unmatchedIndsAux_mem _ 0 t ht
      rw [Nat.sub_zero] at h2 h3
      rw [mkRows_getD_file meta names files _ t h2]
      exact bucketFile_of_ne_one files _ h3
    have hlm := List.eq_replicate_of_mem hall
    rwa [List.length_map] at hlm
  have hrowsF : (mkRows meta names files (buildX bmi files.length)).map
      SRow.file = (buildX bmi files.length).map (bucketFile files) :=
    mkRows_map_file meta names files _
  have hmapflat : (↑(((buildX bmi files.length).flatten).map
      (fun i => files.getD i "")) : Multiset String) = ↑files := by
    have hperm : ((buildX bmi files.length).flatten).Perm
        (List.range bmi.length) := Multiset.coe_eq_coe.mp hflat
    rw [Multiset.coe_eq_coe]
    refine (hperm.map (fun i => files.getD i "")).trans ?_
    rw [hbmi_len, map_getD_range]
  have hchain : (↑((resolveRows (mkRows meta names files
        (buildX bmi files.length))
        (unmatchedInds (buildX bmi files.length))
        (unmatchedFiles files (buildX bmi files.length)) picks).map SRow.file) +
      ↑(List.replicate (unmatchedInds (buildX bmi files.length)).length
        UNMATCHED) : Multiset String) =
      ↑files + ↑(List.replicate
        (unmatchedInds (buildX bmi files.length)).length UNMATCHED) := by
    rw [hindsU] at hres
    rw [hres, hrowsF]
    have hbp := bucket_partition files (buildX bmi files.length) 0
    unfold unmatchedInds
    rw [hbp, hmapflat]
  have hfinalperm : ((resolveRows (mkRows meta names files
      (buildX bmi files.length))
      (unmatchedInds (buildX bmi files.length))
      (unmatchedFiles files (buildX bmi files.length)) picks).map
        SRow.file).Perm files :=
    Multiset.coe_eq_coe.mp (add_right_cancel hchain)
  have hfinalnodup : ((resolveRows (mkRows meta names files
      (buildX bmi files.length))
      (unmatchedInds (buildX bmi files.length))
      (unmatchedFiles files (buildX bmi files.length)) picks).map
        SRow.file).Nodup := (hfinalperm.nodup_iff).mpr hfiles
  have hkeysid : pyDictList ((resolveRows (mkRows meta names files
      (buildX bmi files.length))
      (unmatchedInds (buildX bmi files.length))
      (unmatchedFiles files (buildX bmi files.length)) picks).enum.map
      (fun p => (p.2.file, p.1))) =
      (resolveRows (mkRows meta names files (buildX bmi files.length))
        (unmatchedInds (buildX bmi files.length))
        (unmatchedFiles files (buildX bmi files.length)) picks).enum.map
        (fun p => (p.2.file, p.1)) := by
    apply pyDictList_eq_self
    rw [enum_pair_map_fst]
    exact hfinalnodup
  have hfinal_len : (resolveRows (mkRows meta names files
      (buildX bmi files.length))
      (unmatchedInds (buildX bmi files.length))
      (unmatchedFiles files (buildX bmi files.length)) picks).length =
      files.length := by
    rw [resolveRows_length, hrows_len]
  rw [hms, hkeysid, enum_pair_map_fst, enum_pair_map_snd, hfinal_len]
  exact ⟨hfinalperm, hfinalnodup, rfl⟩

/-- C1 witness: two files whose best guesses collide on track 0; the user
resolves both rows from the pool and the resulting mapping is a
bijection. -/
theorem claim1_witness :
    ((matchSame metaTwo ["Song One", "Song Two"] ["f1.mp3", "f2.mp3"]
      [0, 0] [0, 0]).map Prod.fst).Perm ["f1.mp3", "f2.mp3"] ∧
    ((matchSame metaTwo ["Song One", "Song Two"] ["f1.mp3", "f2.mp3"]
      [0, 0] [0, 0]).map Prod.fst).Nodup ∧
    (matchSame metaTwo ["Song One", "Song Two"] ["f1.mp3", "f2.mp3"]
      [0, 0] [0, 0]).map Prod.snd =
      List.range (["f1.mp3", "f2.mp3"] : List String).length :=
  claim1_matchSame_bijection metaTwo ["Song One", "Song Two"]
    ["f1.mp3", "f2.mp3"] [0, 0] [0, 0] (by decide) (by decide) (by decide)
    (by decide) (by decide) (by decide) (by decide) (by decide)

/-- C4: with strictly more candidate files than scraped tracks, `match`
fails with the count-mismatch error; the error return is the whole
result, so no similarity score or assignment is computed. -/
theorem claim4_count_mismatch (env : MatchEnv) (md : AlbumMeta)
    (files : List String) (h : files.length > md.tracks.length) :
    matchModel env md files =
      Except.error (PyErr.mismatch files.length
        (scrapedNames md.tracks).length) := by
  have hgt : (files.map baseName).length > (scrapedNames md.tracks).length := by
    rw [List.length_map]
    have := scrapedNames_length_le md.tracks
    omega
  simp only [matchModel]
  rw [if_pos hgt, List.length_map]

/-- C4 witness: two files, one track. -/
theorem claim4_witness :
    matchModel envZero mdOne ["a.mp3", "b.mp3"] =
      Except.error (PyErr.mismatch
        (["a.mp3", "b.mp3"] : List String).length
        (scrapedNames mdOne.tracks).length) :=
  claim4_count_mismatch envZero mdOne ["a.mp3", "b.mp3"] (by decide)

/-- C5: with fewer candidates than (distinct) scraped tracks, the
Mapping returned by `__match_less` has exactly one entry per candidate
(in original candidate order), all entries point to distinct track
indices (each user choice removes that track from the pool offered for
later candidates), and exactly `track count - candidate count` tracks
receive no candidate. -/
theorem claim5_matchLess_mapping (md : AlbumMeta) (files : List String)
    (picks : List Nat)
    (hfiles : files.Nodup)
    (hlt : files.length < (scrapedNames md.tracks).length)
    (hplen : picks.length = files.length)
    (hval : validPicks (scrapedNames md.tracks).length picks = true) :
    ∃ res, matchLessModel true files (scrapedNames md.tracks)
        (scrapedDict md.tracks) picks = Except.ok res ∧
      res.map Prod.fst = files ∧
      (res.map Prod.snd).Nodup ∧
      (∀ v ∈ res.map Prod.snd, v < md.tracks.length) ∧
      ((List.range md.tracks.length).filter
        (fun t => ¬ t ∈ res.map Prod.snd)).length =
        md.tracks.length - files.length := by
  obtain ⟨chosen, hnd, hsub, hclen, heq⟩ :=
    matchLessGo_spec (scrapedDict md.tracks) files (scrapedNames md.tracks)
      picks (scrapedNames_nodup md.tracks) hplen hval
  have hchar : ∀ c ∈ chosen,
      pyLookup (scrapedDict md.tracks) c =
        some ((pyLookup (scrapedDict md.tracks) c).getD 0) := by
    intro c hc
    have hmem : c ∈ (scrapedDict md.tracks).map Prod.fst := hsub c hc
    have hso := pyLookup_isSome_of_mem_keys hmem
    cases hl : pyLookup (scrapedDict md.tracks) c with
    | none => rw [hl] at hso; simp at hso
    | some i => rfl
  have hvals : ∀ c ∈ chosen,
      (pyLookup (scrapedDict md.tracks) c).getD 0 < md.tracks.length ∧
      (md.tracks.getD ((pyLookup (scrapedDict md.tracks) c).getD 0)
        defTrack).name = c := by
    intro c hc
    obtain ⟨h1, h2, -⟩ := pyLookup_scrapedDict md.tracks c _ (hchar c hc)
    exact ⟨h1, h2⟩
  have hfst : (matchLessGo (scrapedDict md.tracks) files
      (scrapedNames md.tracks) picks).map Prod.fst = files := by
    rw [heq]
    exact List.map_fst_zip files _ (by rw [List.length_map, hclen])
  have hsnd : (matchLessGo (scrapedDict md.tracks) files
      (scrapedNames md.tracks) picks).map Prod.snd =
      chosen.map (fun c => (pyLookup (scrapedDict md.tracks) c).getD 0) := by
    rw [heq]
    exact List.map_snd_zip _ _ (by rw [List.length_map, hclen])
  have hsndnodup : ((matchLessGo (scrapedDict md.tracks) files
      (scrapedNames md.tracks) picks).map Prod.snd).Nodup := by
    rw [hsnd]
    refine List.Nodup.map_on ?_ hnd
    intro c₁ hc₁ c₂ hc₂ hval12
    have h1 := (hvals c₁ hc₁).2
    have h2 := (hvals c₂ hc₂).2
    rw [← h1, ← h2, hval12]
  have hsndlt : ∀ v ∈ (matchLessGo (scrapedDict md.tracks) files
      (scrapedNames md.tracks) picks).map Prod.snd, v < md.tracks.length := by
    rw [hsnd]
    intro v hv
    rcases List.mem_map.mp hv with ⟨c, hc, rfl⟩
    exact (hvals c hc).1
  refine ⟨matchLessGo (scrapedDict md.tracks) files (scrapedNames md.tracks)
    picks, ?_, hfst, hsndnodup, hsndlt, ?_⟩
  · unfold matchLessModel
    rw [if_neg (by simp), pyDictList_eq_self (by rw [hfst]; exact hfiles)]
  · have hcount := filter_not_mem_length hsndnodup hsndlt
    rw [hcount, hsnd, List.length_map, hclen]

/-- C5 witness: one file, two tracks; the user picks the second track. -/
theorem claim5_witness :
    ∃ res, matchLessModel true ["a.mp3"] (scrapedNames mdLess.tracks)
        (scrapedDict mdLess.tracks) [1] = Except.ok res ∧
      res.map Prod.fst = ["a.mp3"] ∧
      (res.map Prod.snd).Nodup ∧
      (∀ v ∈ res.map Prod.snd, v < mdLess.tracks.length) ∧
      ((List.range mdLess.tracks.length).filter
        (fun t => ¬ t ∈ res.map Prod.snd)).length =
        mdLess.tracks.length - (["a.mp3"] : List String).length :=
  claim5_matchLess_mapping mdLess ["a.mp3"] [1] (by decide) (by decide)
    (by decide) (by decide)

/-- C6: the per-candidate best-guess computation is deterministic (it is
a function of the score matrix); each row's best match index is in range,
carries the row maximum, and on ties the lowest track index is chosen
(any other index attaining the maximum is at least the chosen one). -/
theorem claim6_argmax_deterministic (matrix : List (List ℚ)) (i : Nat)
    (hi : i < matrix.length) (hne : matrix.getD i [] ≠ []) :
    (bestMatchInds matrix).length = matrix.length ∧
    (bestMatchInds matrix).getD i 0 = argmaxIdx (matrix.getD i []) ∧
    argmaxIdx (matrix.getD i []) < (matrix.getD i []).length ∧
    (∀ j, j < (matrix.getD i []).length →
      (matrix.getD i []).getD j 0 ≤
        (matrix.getD i []).getD (argmaxIdx (matrix.getD i [])) 0) ∧
    (∀ j, j < (matrix.getD i []).length →
      (matrix.getD i []).getD j 0 =
        (matrix.getD i []).getD (argmaxIdx (matrix.getD i [])) 0 →
      argmaxIdx (matrix.getD i []) ≤ j) := by
  obtain ⟨h1, h2, h3⟩ := argmaxIdx_spec (matrix.getD i []) hne
  refine ⟨by unfold bestMatchInds; exact List.length_map _ _, ?_, h1, h2, ?_⟩
  · rw [List.getD_eq_getElem _ _
      (by unfold bestMatchInds; rw [List.length_map]; exact hi)]
    unfold bestMatchInds
    rw [List.getElem_map, ← List.getD_eq_getElem _ _ hi]
  · intro j hj heqv
    by_contra hcon
    push_neg at hcon
    have hlt := h3 j hcon
    rw [heqv] at hlt
    exact lt_irrefl _ hlt

/-- C6 witness: the row `[1, 3, 3]` has its maximum at indices 1 and 2;
the best guess is the lowest, index 1, which is in range. -/
theorem claim6_witness :
    argmaxIdx ([[(1 : ℚ), 3, 3]].getD 0 []) <
      ([[(1 : ℚ), 3, 3]].getD 0 []).length ∧
    argmaxIdx ([[(1 : ℚ), 3, 3]].getD 0 []) = 1 :=
  ⟨(claim6_argmax_deterministic [[(1 : ℚ), 3, 3]] 0 (by decide)
      (by decide)).2.2.1, by decide⟩

/-- C7: template expansion is total on recognized tokens with the
documented bindings — for track number 3 the pattern `%n` expands to
`03`, and for disc 1, track 3, name "Rain" the pattern `%d.%n - %t`
expands to `1.03 - Rain` — and a pattern containing no recognized token
is returned unchanged. -/
theorem claim7_expansion_total :
    formatSongNames mdRain "%n".toList [0] = ["03".toList] ∧
    formatSongNames mdRain "%d.%n - %t".toList [0] =
      ["1.03 - Rain".toList] ∧
    ∀ (md : AlbumMeta) (tr : TrackMeta) (fmt : List Char),
      (∀ q ∈ songDict md tr, occursTok q.1 fmt = false) →
      expandTokens (songDict md tr) fmt = fmt := by
  refine ⟨by decide, by decide, ?_⟩
  intro md tr fmt h
  exact expandTokens_not_occurs _ fmt h

/-- C7 witness: a pattern with no recognized token passes through the
expansion unchanged. -/
theorem claim7_witness :
    expandTokens (songDict mdRain trRain) "abc".toList = "abc".toList :=
  claim7_expansion_total.2.2 mdRain trRain "abc".toList (by decide)

/-- C8 counterexample: with album name `%t` and track name "Rain", the
pattern `%a` expands to "Rain": the token text inside the substituted
album value IS substituted by the later `%t` pass, contradicting the
claim that token-shaped text in a substituted context value is never
substituted (which would give `%t`). -/
theorem claim8_counterexample :
    expandTokens (songDict mdPct trRain) "%a".toList = "Rain".toList ∧
    "Rain".toList ≠ "%t".toList := ⟨by decide, by decide⟩

/-- C8 (amended): tokens are applied sequentially, one full replacement
pass per token, in the fixed order `%a, %r, %g, %y, %t, %s, %n, %d`;
token text introduced by an earlier substitution IS substituted by a
later pass.  Provided no context value contains `'%'` and the pattern
has no two consecutive `'%'` characters, the result agrees with the
one-pass expansion of the original pattern: every occurrence of a
recognized token in the original pattern is replaced by its context
value exactly once, unrecognized substrings pass through unchanged, and
substituted values are never rescanned. -/
theorem claim8_amended_once (md : AlbumMeta) (tr : TrackMeta) (fmt : List Char)
    (hv : ∀ q ∈ songDict md tr, ∀ a ∈ q.2, a ≠ '%')
    (hfmt : noPP fmt = true) :
    expandTokens (songDict md tr) fmt = expandScan (songDict md tr) fmt := by
  apply expandTokens_eq_scan
  · intro q hq
    refine ⟨?_, hv q hq⟩
    unfold songDict albumDict at hq
    simp only [List.cons_append, List.nil_append, List.mem_cons,
      List.not_mem_nil, or_false] at hq
    rcases hq with rfl | rfl | rfl | rfl | rfl | rfl | rfl | rfl <;> simp
  · exact hfmt

/-- C8 witness: a concrete pattern expanded under token-free context
values agrees with the one-pass expansion. -/
theorem claim8_witness :
    expandTokens (songDict mdRain trRain) "x%t".toList =
      expandScan (songDict mdRain trRain) "x%t".toList :=
  claim8_amended_once mdRain trRain "x%t".toList (by decide) (by decide)

/-- C9: an empty album-name or song-name format string makes the
constructor fail with the invalid-format error regardless of every other
input, before the album-path existence check. -/
theorem claim9_empty_format (albumPath : String) (albumPathExists : Bool)
    (destPath : Option String) (albumLink : String)
    (extract useMetadata preserveAlbumName preserveSongNames : Bool)
    (anf snf : Option String)
    (h : anf = some "" ∨ snf = some "") :
    initFormatter albumPath albumPathExists destPath albumLink extract
      useMetadata preserveAlbumName preserveSongNames anf snf =
      Except.error (PyErr.invalidFormat "Invalid name format: empty string") := by
  unfold initFormatter
  rw [if_pos h]

/-- C9 witness: an empty album-name format fails even though the album
path does not exist (so the existence check never fires first). -/
theorem claim9_witness :
    initFormatter "x" false none "link" false false false false
      (some "") none =
      Except.error (PyErr.invalidFormat "Invalid name format: empty string") :=
  claim9_empty_format "x" false none "link" false false false false
    (some "") none (Or.inl rfl)

/-- C10: `match` deduplicates tracks by name — the distinct-name list is
duplicate-free and contains exactly the scraped names; the cardinality
comparison (and hence the mismatch error) is taken against the number of
distinct names; and the name-to-index dict retains, for each name, only
the last track bearing it. -/
theorem claim10_dedup_by_name (tracks : List TrackMeta) :
    ((scrapedNames tracks).Nodup ∧
      ∀ nm, nm ∈ scrapedNames tracks ↔ nm ∈ tracks.map TrackMeta.name) ∧
    (∀ (env : MatchEnv) (md : AlbumMeta) (files : List String),
      matchModel env md files =
        Except.error (PyErr.mismatch files.length
          (scrapedNames md.tracks).length) ↔
        files.length > (scrapedNames md.tracks).length) ∧
    (∀ nm i, pyLookup (scrapedDict tracks) nm = some i →
      i < tracks.length ∧ (tracks.getD i defTrack).name = nm ∧
        ∀ j, i < j → j < tracks.length → (tracks.getD j defTrack).name ≠ nm) := by
  refine ⟨⟨scrapedNames_nodup tracks, fun nm => mem_scrapedNames tracks nm⟩,
    ?_, fun nm i h => pyLookup_scrapedDict tracks nm i h⟩
  intro env md files
  constructor
  · intro herr
    by_contra hle
    push_neg at hle
    simp only [matchModel] at herr
    rw [if_neg (by rw [List.length_map]; omega)] at herr
    by_cases hreg : (files.map baseName).length < (scrapedNames md.tracks).length
    · rw [if_pos hreg] at herr
      unfold matchLessModel at herr
      by_cases hpr : env.proceedLess
      · rw [if_neg (by simp [hpr])] at herr
        simp at herr
      · rw [if_pos (by simp [hpr])] at herr
        simp at herr
    · rw [if_neg hreg] at herr
      simp at herr
  · intro hgt
    simp only [matchModel]
    rw [if_pos (show (files.map baseName).length >
      (scrapedNames md.tracks).length by rw [List.length_map]; exact hgt),
      List.length_map]

/-- C10 witness: with track names `A, B, A` the dict maps `A` to index 2
(the last track named `A`), and no later track bears that name. -/
theorem claim10_witness :
    2 < tracksDup.length ∧ (tracksDup.getD 2 defTrack).name = "A" ∧
      ∀ j, 2 < j → j < tracksDup.length →
        (tracksDup.getD j defTrack).name ≠ "A" :=
  (claim10_dedup_by_name tracksDup).2.2 "A" 2 (by decide)

/-- C2 (code bug): expanding `%t` for the two tracks "Rain?" and "Rain*"
and stripping illegal characters yields the SAME output name "Rain" for
both, yet the rename step proceeds — the duplicate check
`len(formatted_names) == len(set(formatted_names))` runs on the names
BEFORE stripping, where they still differ — and renames both files to
"Rain.mp3", the second rename silently overwriting the first, instead of
aborting the batch. -/
theorem claim2_rename_batch_bug :
    stripIllegal (expandTokens (songDict mdStrip (mdStrip.tracks.getD 0
      defTrack)) "%t".toList) =
      stripIllegal (expandTokens (songDict mdStrip (mdStrip.tracks.getD 1
        defTrack)) "%t".toList) ∧
    (formatSongNames mdStrip "%t".toList [0, 1]).Nodup ∧
    (updateModel cfgStrip mdStrip [("a.mp3", 0), ("b.mp3", 1)] true false).1 =
      [Ev.tagWrite "a.mp3", Ev.tagWrite "b.mp3",
        Ev.renameFile "a.mp3" "Rain.mp3", Ev.renameFile "b.mp3" "Rain.mp3"] :=
  ⟨by decide, by decide, by decide⟩

/-- C3 counterexample: the user declines the pre-update confirmation in
a run that extracted to "unzipped" (which exists at handler time); the
run performs no tag write and no rename, but the extraction directory is
NOT removed — `exit(1)` raises `SystemExit`, which the `except
Exception` cleanup clause does not catch — contradicting the claim that
the output directory is removed before termination. -/
theorem claim3_counterexample :
    runModel cfgZip mdOne (Except.ok [("a.mp3", 0)]) false false true =
      [Ev.unzipped "unzipped"] ∧
    Ev.rmtree "unzipped" ∉
      runModel cfgZip mdOne (Except.ok [("a.mp3", 0)]) false false true := by
  have h1 : runModel cfgZip mdOne (Except.ok [("a.mp3", 0)]) false false true =
      [Ev.unzipped "unzipped"] := by decide
  exact ⟨h1, by rw [h1]; decide⟩

/-- C3 (amended): when the user declines a confirmation checkpoint (the
fewer-files confirmation inside `match`, or the pre-update
confirmation), no tag write, file rename, album rename, ZIP deletion or
directory removal occurs — the run's only mutation is the extraction
itself; in particular the extraction output directory is NOT removed,
because the `SystemExit` raised by the decline is not an `Exception` and
bypasses the cleanup clause of `run`. -/
theorem claim3_decline_stops_mutation (cfg : Config) (md : AlbumMeta)
    (matchRes : Except PyErr (List (String × Nat)))
    (confirmUpdate confirmDelZip : Bool) (destIsDir : Bool)
    (mp : List (String × Nat))
    (h : matchRes = Except.error (PyErr.systemExit 1) ∨
      (matchRes = Except.ok mp ∧ confirmUpdate = false)) :
    runModel cfg md matchRes confirmUpdate confirmDelZip destIsDir =
      (if cfg.extract then [Ev.unzipped (cfg.destPath.getD "")] else []) := by
  rcases h with rfl | ⟨rfl, rfl⟩
  · unfold runModel
    simp [PyErr.isException]
  · unfold runModel updateModel
    simp [PyErr.isException]

/-- C3 witness: declining the fewer-files confirmation in an extracting
run leaves exactly the extraction event. -/
theorem claim3_witness :
    runModel cfgZip mdOne (Except.error (PyErr.systemExit 1)) true true true =
      (if cfgZip.extract then [Ev.unzipped (cfgZip.destPath.getD "")]
        else []) :=
  claim3_decline_stops_mutation cfgZip mdOne _ true true true [] (Or.inl rfl)

end Formatter
